import Mathlib

/-!
Verification of the Obscurus protocol core against its source.

The development shallowly embeds the parts of the repository that the
checked properties concern:

* the LeanIMT helpers `calculateLeanIMTRoot`, `calculateLeanIMTProof` and
  `verifyLeanIMTProof` (frontend `lib/zk` modules; the two copies in the
  repository are line-for-line identical, so one embedding covers both);
* the `GroupManager` contract (createGroup / addMember / freezeGroup /
  getActiveRoot) composed with the Semaphore collaborator, whose group ids
  start at 1 and whose per-group tree follows the LeanIMT semantics;
* the `ZKVerifier` contract (`verifyZKProof`) over an abstract Semaphore
  environment covering both the mock branch and the real branch.

Field elements are modelled as `Nat`; the Poseidon hash is an explicit
parameter `H : Nat → Nat → Nat`, matching the spec's treatment of the hash
as an abstract collision-resistant primitive.
-/

namespace Obscurus

/-- Failure outcomes observable from the contracts and library functions.
The first six constructors are the errors the source declares or raises
(`GroupManager` custom errors, `ZKVerifier` custom errors, and Solidity
`require` failures carrying a message).  The last two, `groupNotReady` and
`invalidAdmin`, appear only in the specification's vocabulary and are never
produced by any code path; they are included so that spec sentences naming
them can be stated and compared against the code's actual outcomes. -/
inductive Err where
  | groupAlreadyInitialized
  | groupNotInitialized
  | unauthorized
  | groupAlreadyFrozen
  | duplicateUse
  | invalidProof
  | requireFail (msg : String)
  | groupNotReady
  | invalidAdmin
deriving DecidableEq, Repr

/-- Events emitted by the contracts that the claims mention. -/
inductive Event where
  | accessGranted (contextId nullifierHash signal : Nat)
deriving DecidableEq, Repr

/-! ## LeanIMT (frontend `lib/zk`: calculateLeanIMTRoot / calculateLeanIMTProof /
verifyLeanIMTProof) -/

/-- One level-building pass of the LeanIMT algorithm: adjacent pairs are
hashed, and an unpaired trailing node is promoted unchanged (the inner
`for (let i = 0; i < currentLevel.length; i += 2)` loop shared by
`calculateLeanIMTRoot` and `calculateLeanIMTProof`). -/
def nextLevel (H : Nat → Nat → Nat) : List Nat → List Nat
  | a :: b :: rest => H a b :: nextLevel H rest
  | l => l

/-- Each LeanIMT level pass halves the node count, rounding up. -/
theorem nextLevel_length (H : Nat → Nat → Nat) :
    (l : List Nat) → (nextLevel H l).length = (l.length + 1) / 2
  | [] => by simp [nextLevel]
  | [_] => by simp [nextLevel]
  | _ :: _ :: rest => by
    have ih := nextLevel_length H rest
    simp only [nextLevel, List.length_cons, ih]
    omega

/-- The `while (currentLevel.length > 1)` loop of `calculateLeanIMTRoot`,
returning the single remaining node. -/
def rootLoop (H : Nat → Nat → Nat) (l : List Nat) : Nat :=
  if _h : 1 < l.length then rootLoop H (nextLevel H l) else l.headD 0
termination_by l.length
decreasing_by
  simp only [nextLevel_length]
  omega

/-- `calculateLeanIMTRoot(leaves)`: `0` for no leaves, the leaf itself for a
single leaf, otherwise the level-folding loop. -/
def calculateLeanIMTRoot (H : Nat → Nat → Nat) : List Nat → Nat
  | [] => 0
  | [x] => x
  | l => rootLoop H l

/-- The level loop of `calculateLeanIMTProof`, running for `nLevels`
iterations: on reaching a single-node level it pads both arrays with zeros
up to the requested depth; otherwise it records the path bit and the
sibling (`0` when the sibling index is out of range) and recurses on the
next level at the halved index. -/
def proofLoop (H : Nat → Nat → Nat) (lvl : List Nat) (idx : Nat) :
    Nat → List Nat × List Nat
  | 0 => ([], [])
  | Nat.succ d =>
    if lvl.length = 1 then
      (List.replicate (d + 1) 0, List.replicate (d + 1) 0)
    else
      let isRight := idx % 2 = 1
      let pathBit := if isRight then 1 else 0
      let sibIdx := if isRight then idx - 1 else idx + 1
      let sib := lvl.getD sibIdx 0
      let rest := proofLoop H (nextLevel H lvl) (idx / 2) d
      (pathBit :: rest.1, sib :: rest.2)

/-- The `{pathIndices, siblings}` record returned by
`calculateLeanIMTProof`. -/
structure MerkleProof where
  pathIndices : List Nat
  siblings : List Nat
deriving DecidableEq, Repr

/-- `calculateLeanIMTProof(leaves, leafIndex, nLevels)`. -/
def calculateLeanIMTProof (H : Nat → Nat → Nat) (leaves : List Nat)
    (leafIndex nLevels : Nat) : MerkleProof :=
  let r := proofLoop H leaves leafIndex nLevels
  ⟨r.1, r.2⟩

/-- The folding loop of `verifyLeanIMTProof`: a zero sibling passes the
current node through unhashed; otherwise the node is hashed with the
sibling on the side selected by the path index. -/
def verifyFold (H : Nat → Nat → Nat) : Nat → List Nat → List Nat → Nat
  | cur, pathBit :: ps, sib :: ss =>
    if sib = 0 then verifyFold H cur ps ss
    else verifyFold H (if pathBit = 0 then H cur sib else H sib cur) ps ss
  | cur, _, _ => cur

/-- `verifyLeanIMTProof(leaf, pathIndices, siblings, expectedRoot)`. -/
def verifyLeanIMTProof (H : Nat → Nat → Nat) (leaf : Nat)
    (pathIndices siblings : List Nat) (expectedRoot : Nat) : Bool :=
  verifyFold H leaf pathIndices siblings == expectedRoot

/-- Concrete stand-in hash used for witnesses and counterexamples: total,
never zero, and with `H0 0 x ≠ x`. -/
def H0 : Nat → Nat → Nat := fun a b => a + b + 1

/-! ## GroupManager (src/contracts, `GroupManager` contract) composed with
the Semaphore collaborator.

The Semaphore contract itself is an external dependency (only its interface
is vendored); the repository's own stand-in, `MockSemaphore`
(src/contracts/mocks), numbers groups from 1 by pre-incrementing a counter,
and the real Semaphore v4 group holds a LeanIMT over the added identity
commitments, exactly the structure the frontend's `calculateLeanIMTRoot`
replicates.  The composed model therefore keeps, per Semaphore group id, the
ordered list of added leaves, and `getMerkleTreeRoot` is
`calculateLeanIMTRoot` of that list.  Addresses are modelled as `Nat`, with
`0` the zero address. -/

/-- Combined storage of `GroupManager` (three mappings) and the Semaphore
collaborator (group counter and per-group leaf sequences). -/
structure GMState where
  semaphoreGroupOf : Nat → Nat
  groupAdmin : Nat → Nat
  isFrozen : Nat → Bool
  semCounter : Nat
  semLeaves : Nat → List Nat

/-- Deployment state: empty mappings, no Semaphore groups. -/
def GMState.init : GMState :=
  ⟨fun _ => 0, fun _ => 0, fun _ => false, 0, fun _ => []⟩

/-- `GroupManager.createGroup(id, admin)` (callable by anyone): fails
`GroupAlreadyInitialized` when the id is already bound, `Unauthorized` when
the admin is the zero address; otherwise creates a fresh Semaphore group
and binds it. -/
def createGroup (s : GMState) (id admin : Nat) : Except Err GMState :=
  if s.semaphoreGroupOf id ≠ 0 then Except.error Err.groupAlreadyInitialized
  else if admin = 0 then Except.error Err.unauthorized
  else
    let semGroupId := s.semCounter + 1
    Except.ok
      { semaphoreGroupOf := fun i => if i = id then semGroupId else s.semaphoreGroupOf i
        groupAdmin := fun i => if i = id then admin else s.groupAdmin i
        isFrozen := s.isFrozen
        semCounter := semGroupId
        semLeaves := s.semLeaves }

/-- `GroupManager.addMember(id, identityCommitment)`: requires the group to
be initialized, the caller to be the admin, and the group not frozen; then
appends the commitment to the Semaphore group's leaves. -/
def addMember (s : GMState) (caller id leaf : Nat) : Except Err GMState :=
  let admin := s.groupAdmin id
  if admin = 0 then Except.error Err.groupNotInitialized
  else if admin ≠ caller then Except.error Err.unauthorized
  else if s.isFrozen id then Except.error Err.groupAlreadyFrozen
  else
    let g := s.semaphoreGroupOf id
    Except.ok
      { s with semLeaves := fun i => if i = g then s.semLeaves g ++ [leaf]
                            else s.semLeaves i }

/-- `GroupManager.freezeGroup(id)`: same guards as `addMember`, then sets
the frozen flag (there is no unfreeze operation anywhere in the contract). -/
def freezeGroup (s : GMState) (caller id : Nat) : Except Err GMState :=
  let admin := s.groupAdmin id
  if admin = 0 then Except.error Err.groupNotInitialized
  else if admin ≠ caller then Except.error Err.unauthorized
  else if s.isFrozen id then Except.error Err.groupAlreadyFrozen
  else
    Except.ok
      { s with isFrozen := fun i => if i = id then true else s.isFrozen i }

/-- `GroupManager.getActiveRoot(id)`: fails `GroupNotInitialized` for an
unbound id, otherwise returns the Semaphore group's current Merkle tree
root.  The source performs no frozen-state check here. -/
def getActiveRoot (H : Nat → Nat → Nat) (s : GMState) (id : Nat) :
    Except Err Nat :=
  if s.groupAdmin id = 0 then Except.error Err.groupNotInitialized
  else Except.ok (calculateLeanIMTRoot H (s.semLeaves (s.semaphoreGroupOf id)))

/-- A transaction against the composed GroupManager system. -/
inductive Op where
  | create (id admin : Nat)
  | add (caller id leaf : Nat)
  | freeze (caller id : Nat)

/-- Applying one transaction: a reverted call leaves the state unchanged
(EVM revert semantics). -/
def step (s : GMState) : Op → GMState
  | Op.create id admin =>
    match createGroup s id admin with
    | Except.ok t => t
    | Except.error _ => s
  | Op.add caller id leaf =>
    match addMember s caller id leaf with
    | Except.ok t => t
    | Except.error _ => s
  | Op.freeze caller id =>
    match freezeGroup s caller id with
    | Except.ok t => t
    | Except.error _ => s

/-- Applying a sequence of transactions in order. -/
def run (s : GMState) : List Op → GMState
  | [] => s
  | op :: ops => run (step s op) ops

/-- Structural invariant of states reachable from deployment: an id is
bound to a Semaphore group exactly when it has an admin, bound group ids
never exceed the Semaphore counter, distinct ids are bound to distinct
Semaphore groups, and only initialized ids are frozen. -/
def Inv (s : GMState) : Prop :=
  (∀ i, s.groupAdmin i ≠ 0 ↔ s.semaphoreGroupOf i ≠ 0) ∧
  (∀ i, s.semaphoreGroupOf i ≤ s.semCounter) ∧
  (∀ i j, s.semaphoreGroupOf i ≠ 0 → s.semaphoreGroupOf j ≠ 0 → i ≠ j →
    s.semaphoreGroupOf i ≠ s.semaphoreGroupOf j) ∧
  (∀ i, s.isFrozen i = true → s.groupAdmin i ≠ 0)

/-! ## ZKVerifier (src/contracts, `ZKVerifier.verifyZKProof`) -/

/-- The `ISemaphore.SemaphoreProof` struct passed to
`semaphore.verifyProof` on the real (non-mock) branch. -/
structure SemaphoreProofArgs where
  merkleTreeDepth : Nat
  merkleTreeRoot : Nat
  nullifier : Nat
  message : Nat
  scope : Nat
  points : List Nat

/-- The immutable collaborators of a deployed `ZKVerifier`: the outcome of
the `isMock()` staticcall probe, the external Semaphore verifier, the two
GroupManager views it consults (`getRoot` may revert, propagating the
revert), and the `keccak256("ZK_CTX", address(this), contextId)` scope
computation, abstract as a function of the context id since the keccak
input varies only in the context id for a fixed deployment. -/
structure ZKEnv where
  isMock : Bool
  semVerify : Nat → SemaphoreProofArgs → Bool
  semaphoreGroupOf : Nat → Nat
  getRoot : Nat → Except Err Nat
  scopeOf : Nat → Nat

/-- `ZKVerifier.verifyZKProof(contextId, signal, nullifierHash, proof)`
over the nullifier-used mapping: duplicate check first, then root
resolution, then either the mock shortcut (`merkleRoot != 0`) or the real
Semaphore verification; `require(ok, "Proof verification failed")`; on
success the nullifier is marked used and `AccessGranted` is emitted. -/
def verifyZKProof (env : ZKEnv) (used : Nat → Nat → Bool)
    (contextId signal nullifierHash : Nat) (proof : List Nat) :
    Except Err ((Nat → Nat → Bool) × List Event) :=
  if used contextId nullifierHash then Except.error Err.duplicateUse
  else
    match env.getRoot contextId with
    | Except.error e => Except.error e
    | Except.ok merkleRoot =>
      let groupId := env.semaphoreGroupOf contextId
      let scope := env.scopeOf contextId
      let ok :=
        if env.isMock then decide (merkleRoot ≠ 0)
        else env.semVerify groupId ⟨10, merkleRoot, nullifierHash, signal, scope, proof⟩
      if ok then
        Except.ok
          (fun c n => if c = contextId ∧ n = nullifierHash then true else used c n,
            [Event.accessGranted contextId nullifierHash signal])
      else Except.error (Err.requireFail "Proof verification failed")

/-- A `verifyZKProof` transaction with revert semantics: a reverted call
leaves the nullifier mapping unchanged and emits nothing. -/
def runVZK (env : ZKEnv) (used : Nat → Nat → Bool)
    (contextId signal nullifierHash : Nat) (proof : List Nat) :
    (Nat → Nat → Bool) × List Event :=
  match verifyZKProof env used contextId signal nullifierHash proof with
  | Except.ok r => r
  | Except.error _ => (used, [])

/-- A submission to `verifyZKProof`. -/
structure Submission where
  contextId : Nat
  signal : Nat
  nullifierHash : Nat
  proof : List Nat

/-- The nullifier mapping after a sequence of submissions, each applied
with revert semantics. -/
def runSubs (env : ZKEnv) (used : Nat → Nat → Bool) :
    List Submission → Nat → Nat → Bool
  | [] => used
  | sub :: subs =>
    runSubs env (runVZK env used sub.contextId sub.signal sub.nullifierHash sub.proof).1 subs

/-! ## Concrete demonstration states (used by witnesses and
counterexamples) -/

/-- State after `createGroup(1, 7)` from deployment (admin address 7). -/
def demoS1 : GMState := step GMState.init (Op.create 1 7)

/-- State after the admin then calls `freezeGroup(1)`. -/
def demoS2 : GMState := step demoS1 (Op.freeze 7 1)

/-- Empty nullifier mapping. -/
def used0 : Nat → Nat → Bool := fun _ _ => false

/-- A `ZKVerifier` deployment whose Semaphore answers `isMock()` with
true; every context resolves to group 1 with root 7. -/
def envMock : ZKEnv :=
  ⟨true, fun _ _ => true, fun _ => 1, fun _ => Except.ok 7, fun c => c + 100⟩

/-- A `ZKVerifier` deployment against a real (non-mock) Semaphore whose
verifier rejects every proof; every context resolves to group 1 with
root 7. -/
def envReal : ZKEnv :=
  ⟨false, fun _ _ => false, fun _ => 1, fun _ => Except.ok 7, fun c => c + 100⟩

/-! ## GroupManager lemmas -/

theorem Inv_init : Inv GMState.init := by
  refine ⟨fun i => ?_, fun i => ?_, fun i j hi _ _ => ?_, fun i h => ?_⟩ <;>
    simp [GMState.init] at *

theorem createGroup_ok_inv {s : GMState} {id admin : Nat} {t : GMState}
    (h : createGroup s id admin = Except.ok t) :
    s.semaphoreGroupOf id = 0 ∧ admin ≠ 0 ∧
    t = { semaphoreGroupOf := fun i => if i = id then s.semCounter + 1 else s.semaphoreGroupOf i
          groupAdmin := fun i => if i = id then admin else s.groupAdmin i
          isFrozen := s.isFrozen
          semCounter := s.semCounter + 1
          semLeaves := s.semLeaves } := by
  simp only [createGroup] at h
  split at h
  · simp at h
  · split at h
    · simp at h
    · next h1 h2 =>
      simp only [Except.ok.injEq] at h
      exact ⟨by simpa using h1, h2, h.symm⟩

theorem addMember_ok_inv {s : GMState} {caller id leaf : Nat} {t : GMState}
    (h : addMember s caller id leaf = Except.ok t) :
    s.groupAdmin id ≠ 0 ∧ s.groupAdmin id = caller ∧ s.isFrozen id = false ∧
    t = { s with semLeaves := fun i => if i = s.semaphoreGroupOf id then
            s.semLeaves (s.semaphoreGroupOf id) ++ [leaf] else s.semLeaves i } := by
  simp only [addMember] at h
  split at h
  · simp at h
  · split at h
    · simp at h
    · split at h
      · simp at h
      · next h1 h2 h3 =>
        simp only [Except.ok.injEq] at h
        exact ⟨h1, by simpa using h2, by simpa using h3, h.symm⟩

theorem freezeGroup_ok_inv {s : GMState} {caller id : Nat} {t : GMState}
    (h : freezeGroup s caller id = Except.ok t) :
    s.groupAdmin id ≠ 0 ∧ s.groupAdmin id = caller ∧ s.isFrozen id = false ∧
    t = { s with isFrozen := fun i => if i = id then true else s.isFrozen i } := by
  simp only [freezeGroup] at h
  split at h
  · simp at h
  · split at h
    · simp at h
    · split at h
      · simp at h
      · next h1 h2 h3 =>
        simp only [Except.ok.injEq] at h
        refine ⟨h1, by simpa using h2, by simpa using h3, ?_⟩
        rw [← h]

theorem Inv_step (s : GMState) (op : Op) (hInv : Inv s) : Inv (step s op) := by
  obtain ⟨hiff, hle, hinj, hfr⟩ := hInv
  cases op with
  | create id admin =>
    cases h : createGroup s id admin with
    | error e => simp only [step, h]; exact ⟨hiff, hle, hinj, hfr⟩
    | ok t =>
      simp only [step, h]
      obtain ⟨h0, hadm, rfl⟩ := createGroup_ok_inv h
      refine ⟨fun i => ?_, fun i => ?_, fun i j hi hj hij => ?_, fun i hi => ?_⟩
      · by_cases hi : i = id <;> simp [hi, hadm, hiff i]
      · by_cases hi : i = id <;> simp [hi]
        exact Nat.le_succ_of_le (hle i)
      · by_cases hci : i = id
        · by_cases hcj : j = id
          · exact absurd (hci.trans hcj.symm) hij
          · simp [hci, hcj] at hi hj ⊢
            have := hle j
            omega
        · by_cases hcj : j = id
          · simp [hci, hcj] at hi hj ⊢
            have := hle i
            omega
          · simp [hci, hcj] at hi hj ⊢
            exact hinj i j hi hj hij
      · by_cases hci : i = id <;> simp [hci, hadm]
        exact hfr i (by simpa using hi)
  | add caller id leaf =>
    cases h : addMember s caller id leaf with
    | error e => simp only [step, h]; exact ⟨hiff, hle, hinj, hfr⟩
    | ok t =>
      simp only [step, h]
      obtain ⟨h0, hadm, hf, rfl⟩ := addMember_ok_inv h
      exact ⟨hiff, hle, hinj, hfr⟩
  | freeze caller id =>
    cases h : freezeGroup s caller id with
    | error e => simp only [step, h]; exact ⟨hiff, hle, hinj, hfr⟩
    | ok t =>
      simp only [step, h]
      obtain ⟨h0, hadm, hf, rfl⟩ := freezeGroup_ok_inv h
      refine ⟨hiff, hle, hinj, fun i hi => ?_⟩
      by_cases hci : i = id
      · exact hci ▸ h0
      · simp only [hci, if_false] at hi
        exact hfr i (by simpa [hci] using hi)

theorem Inv_run (s : GMState) (ops : List Op) (hInv : Inv s) : Inv (run s ops) := by
  induction ops generalizing s with
  | nil => exact hInv
  | cons op ops ih => exact ih (step s op) (Inv_step s op hInv)

/-- Once an id is bound to a Semaphore group, no sequence of transactions
unbinds or rebinds it. -/
theorem bound_stable (s : GMState) (id : Nat) (h : s.semaphoreGroupOf id ≠ 0) :
    ∀ ops, (run s ops).semaphoreGroupOf id = s.semaphoreGroupOf id := by
  have hstep : ∀ (t : GMState) (op : Op), t.semaphoreGroupOf id ≠ 0 →
      (step t op).semaphoreGroupOf id = t.semaphoreGroupOf id := by
    intro t op ht
    cases op with
    | create id2 admin2 =>
      cases hc : createGroup t id2 admin2 with
      | error e => simp only [step, hc]
      | ok u =>
        obtain ⟨h0, hadm, rfl⟩ := createGroup_ok_inv hc
        have hne : id ≠ id2 := fun heq => ht (heq ▸ h0)
        simp only [step, hc]
        simp [hne]
    | add caller id2 leaf =>
      cases hc : addMember t caller id2 leaf with
      | error e => simp only [step, hc]
      | ok u =>
        obtain ⟨h0, hadm, hf, rfl⟩ := addMember_ok_inv hc
        simp only [step, hc]
    | freeze caller id2 =>
      cases hc : freezeGroup t caller id2 with
      | error e => simp only [step, hc]
      | ok u =>
        obtain ⟨h0, hadm, hf, rfl⟩ := freezeGroup_ok_inv hc
        simp only [step, hc]
  intro ops
  induction ops generalizing s with
  | nil => rfl
  | cons op ops ih =>
    have h1 := hstep s op h
    have h2 := ih (step s op) (h1 ▸ h)
    simp [run, h2, h1]

/-- One transaction against an initialized, frozen id: the invariant is
preserved, the id's binding, admin, frozen flag, and the leaves of its
Semaphore group are all unchanged. -/
theorem frozen_stable_step (s : GMState) (id : Nat) (op : Op) (hInv : Inv s)
    (hadm : s.groupAdmin id ≠ 0) (hfr : s.isFrozen id = true) :
    Inv (step s op) ∧ (step s op).groupAdmin id = s.groupAdmin id ∧
    (step s op).semaphoreGroupOf id = s.semaphoreGroupOf id ∧
    (step s op).isFrozen id = true ∧
    (step s op).semLeaves (s.semaphoreGroupOf id) = s.semLeaves (s.semaphoreGroupOf id) := by
  refine ⟨Inv_step s op hInv, ?_⟩
  have hbound : s.semaphoreGroupOf id ≠ 0 := (hInv.1 id).mp hadm
  cases op with
  | create id2 admin2 =>
    cases hc : createGroup s id2 admin2 with
    | error e => simp [step, hc, hfr]
    | ok u =>
      obtain ⟨h0, _, rfl⟩ := createGroup_ok_inv hc
      have hne : id ≠ id2 := fun heq => hbound (heq ▸ h0)
      simp [step, hc, hne, hfr]
  | add caller id2 leaf =>
    cases hc : addMember s caller id2 leaf with
    | error e => simp [step, hc, hfr]
    | ok u =>
      obtain ⟨h0, _, hf, rfl⟩ := addMember_ok_inv hc
      have hne : id2 ≠ id := fun heq => by simp [heq, hfr] at hf
      have hgne : s.semaphoreGroupOf id ≠ s.semaphoreGroupOf id2 :=
        hInv.2.2.1 id id2 hbound ((hInv.1 id2).mp h0) (fun heq => hne heq.symm)
      simp [step, hc, hfr, hgne]
  | freeze caller id2 =>
    cases hc : freezeGroup s caller id2 with
    | error e => simp [step, hc, hfr]
    | ok u =>
      obtain ⟨h0, _, hf, rfl⟩ := freezeGroup_ok_inv hc
      by_cases hci : id = id2 <;> simp [step, hc, hci, hfr]

/-- No sequence of transactions changes anything observable about an
initialized, frozen id: its admin, binding, frozen flag, and its Semaphore
group's leaves are fixed forever. -/
theorem frozen_stable (s : GMState) (id : Nat) (hInv : Inv s)
    (hadm : s.groupAdmin id ≠ 0) (hfr : s.isFrozen id = true) :
    ∀ ops, (run s ops).groupAdmin id = s.groupAdmin id ∧
      (run s ops).semaphoreGroupOf id = s.semaphoreGroupOf id ∧
      (run s ops).isFrozen id = true ∧
      (run s ops).semLeaves ((run s ops).semaphoreGroupOf id) =
        s.semLeaves (s.semaphoreGroupOf id) := by
  intro ops
  induction ops generalizing s with
  | nil => exact ⟨rfl, rfl, hfr, rfl⟩
  | cons op ops ih =>
    obtain ⟨hI, ha, hg, hf, hl⟩ := frozen_stable_step s id op hInv hadm hfr
    obtain ⟨ih1, ih2, ih3, ih4⟩ := ih (step s op) hI (by rw [ha]; exact hadm) hf
    simp only [run]
    rw [hg] at ih2
    rw [ih2, hg] at ih4
    refine ⟨ih1.trans ha, ih2, ih3, ?_⟩
    rw [ih2]
    exact ih4.trans hl

theorem Inv_demoS1 : Inv demoS1 := Inv_step GMState.init (Op.create 1 7) Inv_init

theorem Inv_demoS2 : Inv demoS2 := Inv_step demoS1 (Op.freeze 7 1) Inv_demoS1

/-! ## Claim theorems: GroupManager lifecycle -/

/-- **C1** (corrected).  `getActiveRoot` performs no frozen-state check:
it fails `GroupNotInitialized` (not `GroupNotReady`, which the code does
not define) exactly on uninitialized contexts, and on every initialized
context — frozen or not — it returns the Semaphore group's current tree
root.  For a frozen context that value can never change again, because no
transaction can alter the frozen group's leaves. -/
theorem getActiveRoot_initialized_only (H : Nat → Nat → Nat) (s : GMState) (id : Nat) :
    (s.groupAdmin id = 0 → getActiveRoot H s id = Except.error Err.groupNotInitialized) ∧
    (s.groupAdmin id ≠ 0 →
      getActiveRoot H s id =
        Except.ok (calculateLeanIMTRoot H (s.semLeaves (s.semaphoreGroupOf id)))) ∧
    (Inv s → s.isFrozen id = true →
      ∀ ops, getActiveRoot H (run s ops) id = getActiveRoot H s id) := by
  refine ⟨fun h => by simp [getActiveRoot, h], fun h => by simp [getActiveRoot, h],
    fun hInv hfr ops => ?_⟩
  have hadm : s.groupAdmin id ≠ 0 := hInv.2.2.2 id hfr
  obtain ⟨h1, h2, _, h4⟩ := frozen_stable s id hInv hadm hfr ops
  rw [h2] at h4
  simp [getActiveRoot, h1, h2, h4, hadm]

/-- Witness for C1's theorem at concrete states: an unknown context fails
`GroupNotInitialized`, a freshly created context already answers with root
`0`, and the root of the frozen demo context survives a further
transaction batch. -/
theorem getActiveRoot_initialized_only_witness :
    getActiveRoot H0 GMState.init 5 = Except.error Err.groupNotInitialized ∧
    getActiveRoot H0 demoS1 1 = Except.ok 0 ∧
    getActiveRoot H0 (run demoS2 [Op.add 7 1 9, Op.create 2 8]) 1 =
      getActiveRoot H0 demoS2 1 :=
  ⟨(getActiveRoot_initialized_only H0 GMState.init 5).1 rfl,
    (getActiveRoot_initialized_only H0 demoS1 1).2.1 (by decide),
    (getActiveRoot_initialized_only H0 demoS2 1).2.2 Inv_demoS2 rfl
      [Op.add 7 1 9, Op.create 2 8]⟩

/-- **C1 counterexample**.  On an initialized but *not* frozen context the
code does not fail `GroupNotReady` as the claim states: it succeeds and
returns the live root. -/
theorem getActiveRoot_open_succeeds :
    demoS1.isFrozen 1 = false ∧
    getActiveRoot H0 demoS1 1 = Except.ok 0 ∧
    (Except.ok 0 : Except Err Nat) ≠ Except.error Err.groupNotReady := by
  refine ⟨rfl, rfl, by simp⟩

/-- **C4** (corrected).  A successful `freezeGroup` (which requires the
caller to be the admin and the group to be unfrozen) sets the frozen flag
irreversibly; a repeat call by the admin fails `AlreadyFrozen` (a repeat
by anyone else fails `Unauthorized`, see the counterexample); and although
the contract stores no `frozenRoot` snapshot, the value `getActiveRoot`
returns never changes after the freeze, under any later transactions. -/
theorem freezeGroup_irreversible (H : Nat → Nat → Nat) (s : GMState)
    (caller id : Nat) (t : GMState) (hInv : Inv s)
    (h : freezeGroup s caller id = Except.ok t) :
    t.isFrozen id = true ∧
    (∀ ops, (run t ops).isFrozen id = true) ∧
    freezeGroup t caller id = Except.error Err.groupAlreadyFrozen ∧
    (∀ ops, getActiveRoot H (run t ops) id = getActiveRoot H t id) := by
  have hInvT : Inv t := by
    have hstep := Inv_step s (Op.freeze caller id) hInv
    simpa only [step, h] using hstep
  obtain ⟨hadm, hcaller, hunfr, ht⟩ := freezeGroup_ok_inv h
  have htfr : t.isFrozen id = true := by rw [ht]; simp
  have htadm : t.groupAdmin id = s.groupAdmin id := by rw [ht]
  have htadm0 : t.groupAdmin id ≠ 0 := by rw [htadm]; exact hadm
  refine ⟨htfr, fun ops => (frozen_stable t id hInvT htadm0 htfr ops).2.2.1, ?_,
    fun ops => ?_⟩
  · have hc0 : caller ≠ 0 := hcaller ▸ hadm
    have htc : t.groupAdmin id = caller := htadm.trans hcaller
    simp [freezeGroup, htc, hc0, htfr]
  · obtain ⟨h1, h2, _, h4⟩ := frozen_stable t id hInvT htadm0 htfr ops
    rw [h2] at h4
    simp [getActiveRoot, h1, h2, h4, htadm0]

/-- Witness for C4's theorem: freezing the demo group succeeds, marks it
frozen, and a second admin call fails `AlreadyFrozen`. -/
theorem freezeGroup_irreversible_witness :
    demoS2.isFrozen 1 = true ∧
    freezeGroup demoS2 7 1 = Except.error Err.groupAlreadyFrozen :=
  ⟨(freezeGroup_irreversible H0 demoS1 7 1 demoS2 Inv_demoS1 rfl).1,
    (freezeGroup_irreversible H0 demoS1 7 1 demoS2 Inv_demoS1 rfl).2.2.1⟩

/-- **C4 counterexample**.  Not every later `freezeGroup` call on a frozen
context fails `AlreadyFrozen`: the authorization check runs first, so a
non-admin caller (address 9) gets `Unauthorized`. -/
theorem freezeGroup_frozen_nonadmin_unauthorized :
    demoS2.isFrozen 1 = true ∧
    freezeGroup demoS2 9 1 = Except.error Err.unauthorized ∧
    Err.unauthorized ≠ Err.groupAlreadyFrozen :=
  ⟨rfl, rfl, by decide⟩

/-- **C5** (corrected).  On a frozen group, `addMember` by the admin fails
`AlreadyFrozen` and the state — in particular the tree — is unchanged; an
unauthorized caller on any initialized group fails `Unauthorized` (also on
frozen groups, since that check runs first), again with no state change. -/
theorem addMember_frozen_guards (s : GMState) (caller id leaf : Nat) :
    (s.groupAdmin id ≠ 0 → s.groupAdmin id = caller → s.isFrozen id = true →
      addMember s caller id leaf = Except.error Err.groupAlreadyFrozen ∧
      step s (Op.add caller id leaf) = s) ∧
    (s.groupAdmin id ≠ 0 → s.groupAdmin id ≠ caller →
      addMember s caller id leaf = Except.error Err.unauthorized ∧
      step s (Op.add caller id leaf) = s) := by
  constructor
  · intro h1 h2 h3
    have he : addMember s caller id leaf = Except.error Err.groupAlreadyFrozen := by
      simp only [addMember]
      rw [if_neg h1, if_neg (by simp [h2]), if_pos h3]
    exact ⟨he, by simp [step, he]⟩
  · intro h1 h2
    have he : addMember s caller id leaf = Except.error Err.unauthorized := by
      simp only [addMember]
      rw [if_neg h1, if_pos h2]
    exact ⟨he, by simp [step, he]⟩

/-- Witness for C5's theorem: on the frozen demo group, the admin's
`addMember` fails `AlreadyFrozen` and a stranger's fails `Unauthorized`;
both leave the state untouched. -/
theorem addMember_frozen_guards_witness :
    (addMember demoS2 7 1 9 = Except.error Err.groupAlreadyFrozen ∧
      step demoS2 (Op.add 7 1 9) = demoS2) ∧
    (addMember demoS2 9 1 5 = Except.error Err.unauthorized ∧
      step demoS2 (Op.add 9 1 5) = demoS2) :=
  ⟨(addMember_frozen_guards demoS2 7 1 9).1 (by decide) rfl rfl,
    (addMember_frozen_guards demoS2 9 1 5).2 (by decide) (by decide)⟩

/-- **C5 counterexample**.  `addMember` on a frozen group does not
*always* fail `AlreadyFrozen`: a non-admin caller gets `Unauthorized`
because the authorization check precedes the frozen check. -/
theorem addMember_frozen_nonadmin_unauthorized :
    demoS2.isFrozen 1 = true ∧
    addMember demoS2 9 1 5 = Except.error Err.unauthorized ∧
    Err.unauthorized ≠ Err.groupAlreadyFrozen :=
  ⟨rfl, rfl, by decide⟩

/-- **C7** (corrected).  `createGroup` fails `GroupAlreadyInitialized` on
every bound context id — including, permanently, every id created earlier —
and for the zero admin address it fails `Unauthorized` (the code defines no
`InvalidAdmin` error); otherwise the context becomes Open (admin set,
not frozen) and stays bound forever. -/
theorem createGroup_behavior (s : GMState) (id admin : Nat) (hInv : Inv s) :
    (s.semaphoreGroupOf id ≠ 0 →
      createGroup s id admin = Except.error Err.groupAlreadyInitialized) ∧
    (s.semaphoreGroupOf id = 0 → admin = 0 →
      createGroup s id admin = Except.error Err.unauthorized) ∧
    (s.semaphoreGroupOf id = 0 → admin ≠ 0 →
      ∃ t, createGroup s id admin = Except.ok t ∧ t.groupAdmin id = admin ∧
        t.isFrozen id = false ∧
        ∀ ops admin2,
          createGroup (run t ops) id admin2 =
            Except.error Err.groupAlreadyInitialized) := by
  refine ⟨fun h => by simp [createGroup, h],
    fun h0 ha => by simp [createGroup, h0, ha], fun h0 ha => ?_⟩
  have hc : createGroup s id admin = Except.ok
      { semaphoreGroupOf := fun i => if i = id then s.semCounter + 1 else s.semaphoreGroupOf i
        groupAdmin := fun i => if i = id then admin else s.groupAdmin i
        isFrozen := s.isFrozen
        semCounter := s.semCounter + 1
        semLeaves := s.semLeaves } := by
    simp [createGroup, h0, ha]
  have hnf : s.isFrozen id = false := by
    cases hf : s.isFrozen id with
    | false => rfl
    | true => exact absurd ((hInv.1 id).mp (hInv.2.2.2 id hf)) (by simp [h0])
  refine ⟨_, hc, by simp, by simpa using hnf, fun ops admin2 => ?_⟩
  have hb := bound_stable
    { semaphoreGroupOf := fun i => if i = id then s.semCounter + 1 else s.semaphoreGroupOf i
      groupAdmin := fun i => if i = id then admin else s.groupAdmin i
      isFrozen := s.isFrozen
      semCounter := s.semCounter + 1
      semLeaves := s.semLeaves } id (by simp) ops
  simp [createGroup, hb]

/-- Witness for C7's theorem: a zero admin is rejected with
`Unauthorized`, and recreating the already-created demo context fails
`GroupAlreadyInitialized`. -/
theorem createGroup_behavior_witness :
    createGroup GMState.init 1 0 = Except.error Err.unauthorized ∧
    createGroup demoS1 1 7 = Except.error Err.groupAlreadyInitialized :=
  ⟨(createGroup_behavior GMState.init 1 0 Inv_init).2.1 rfl rfl,
    (createGroup_behavior demoS1 1 7 Inv_demoS1).1 (by decide)⟩

/-- **C7 counterexample**.  For an empty (zero) admin the code reverts
with `Unauthorized`, not with the `InvalidAdmin` error the claim names —
no `InvalidAdmin` error exists in the contract. -/
theorem createGroup_zero_admin_unauthorized :
    createGroup GMState.init 1 0 = Except.error Err.unauthorized ∧
    Err.unauthorized ≠ Err.invalidAdmin :=
  ⟨rfl, by decide⟩

/-! ## ZKVerifier lemmas and claim theorems -/

theorem verifyZKProof_ok_inv {env : ZKEnv} {used : Nat → Nat → Bool}
    {c s n : Nat} {p : List Nat} {u2 : Nat → Nat → Bool} {evs : List Event}
    (h : verifyZKProof env used c s n p = Except.ok (u2, evs)) :
    used c n = false ∧ u2 c n = true ∧
    (∀ c2 n2, used c2 n2 = true → u2 c2 n2 = true) ∧
    evs = [Event.accessGranted c n s] := by
  by_cases hused : used c n = true
  · simp [verifyZKProof, hused] at h
  · cases hroot : env.getRoot c with
    | error e => simp [verifyZKProof, hused, hroot] at h
    | ok r =>
      by_cases hmock : env.isMock = true
      · by_cases hr : r = 0
        · simp [verifyZKProof, hused, hroot, hmock, hr] at h
        · have hv : verifyZKProof env used c s n p = Except.ok
              (fun c2 n2 => if c2 = c ∧ n2 = n then true else used c2 n2,
                [Event.accessGranted c n s]) := by
            simp [verifyZKProof, hused, hroot, hmock, hr]
          rw [hv] at h
          simp only [Except.ok.injEq, Prod.mk.injEq] at h
          obtain ⟨h1, h2⟩ := h
          subst h1
          subst h2
          exact ⟨by simpa using hused, by simp, fun c2 n2 hh => by simp [hh], rfl⟩
      · by_cases hvv : env.semVerify (env.semaphoreGroupOf c)
            ⟨10, r, n, s, env.scopeOf c, p⟩ = true
        · have hv : verifyZKProof env used c s n p = Except.ok
              (fun c2 n2 => if c2 = c ∧ n2 = n then true else used c2 n2,
                [Event.accessGranted c n s]) := by
            simp [verifyZKProof, hused, hroot, hmock, hvv]
          rw [hv] at h
          simp only [Except.ok.injEq, Prod.mk.injEq] at h
          obtain ⟨h1, h2⟩ := h
          subst h1
          subst h2
          exact ⟨by simpa using hused, by simp, fun c2 n2 hh => by simp [hh], rfl⟩
        · simp [verifyZKProof, hused, hroot, hmock, hvv] at h

/-- A successful `verifyZKProof` call never clears a used-nullifier flag. -/
theorem runVZK_mono (env : ZKEnv) (used : Nat → Nat → Bool)
    (c0 s0 n0 : Nat) (p0 : List Nat) (c n : Nat) (h : used c n = true) :
    (runVZK env used c0 s0 n0 p0).1 c n = true := by
  unfold runVZK
  cases hv : verifyZKProof env used c0 s0 n0 p0 with
  | error e => exact h
  | ok r =>
    obtain ⟨u2, evs⟩ := r
    obtain ⟨_, _, hmono, _⟩ := verifyZKProof_ok_inv hv
    exact hmono c n h

/-- No sequence of further submissions clears a used-nullifier flag. -/
theorem runSubs_mono (env : ZKEnv) (c n : Nat) :
    ∀ (subs : List Submission) (used : Nat → Nat → Bool), used c n = true →
      runSubs env used subs c n = true := by
  intro subs
  induction subs with
  | nil => intro used h; exact h
  | cons sub subs ih =>
    intro used h
    exact ih _ (runVZK_mono env used sub.contextId sub.signal sub.nullifierHash sub.proof c n h)

/-- **C2** (confirmed).  When a `verifyZKProof` call for
`(contextId, nullifierHash)` succeeds, it emits exactly one `AccessGranted`
and marks the pair used; from then on, after any further submissions,
every call with the same pair reverts `DuplicateUse`, leaving state and
logs unchanged — so of two identical submissions exactly one succeeds. -/
theorem verifyZKProof_single_use (env : ZKEnv) (used : Nat → Nat → Bool)
    (c s n : Nat) (p : List Nat) (u2 : Nat → Nat → Bool) (evs : List Event)
    (h : verifyZKProof env used c s n p = Except.ok (u2, evs)) :
    evs = [Event.accessGranted c n s] ∧ u2 c n = true ∧
    ∀ (subs : List Submission) (s2 : Nat) (p2 : List Nat),
      verifyZKProof env (runSubs env u2 subs) c s2 n p2 =
        Except.error Err.duplicateUse ∧
      runVZK env (runSubs env u2 subs) c s2 n p2 = (runSubs env u2 subs, []) := by
  obtain ⟨hused, hu2, hmono, hevs⟩ := verifyZKProof_ok_inv h
  refine ⟨hevs, hu2, fun subs s2 p2 => ?_⟩
  have hmark := runSubs_mono env c n subs u2 hu2
  have herr : verifyZKProof env (runSubs env u2 subs) c s2 n p2 =
      Except.error Err.duplicateUse := by
    simp [verifyZKProof, hmark]
  exact ⟨herr, by simp [runVZK, herr]⟩

/-- Witness for C2's theorem: against the mock deployment, submitting
nullifier 2 for context 1 succeeds once; the identical resubmission
(empty further-submission list) reverts `DuplicateUse` with no event. -/
theorem verifyZKProof_single_use_witness :
    verifyZKProof envMock
      (fun c2 n2 => if c2 = 1 ∧ n2 = 2 then true else used0 c2 n2) 1 1 2 [] =
      Except.error Err.duplicateUse :=
  ((verifyZKProof_single_use envMock used0 1 1 2 []
    (fun c2 n2 => if c2 = 1 ∧ n2 = 2 then true else used0 c2 n2)
    [Event.accessGranted 1 2 1] rfl).2.2 [] 1 []).1

/-- **C3** (corrected).  When the external verifier rejects on the real
(non-mock) branch, `verifyZKProof` reverts — so the nullifier slot is not
consumed and no `AccessGranted` is emitted — but the revert carries the
`require` message `"Proof verification failed"`, not the contract's
declared `InvalidProof` custom error, whose use is commented out. -/
theorem verifyZKProof_reject_no_mutation (env : ZKEnv) (used : Nat → Nat → Bool)
    (c s n r : Nat) (p : List Nat) (hmock : env.isMock = false)
    (hused : used c n = false) (hroot : env.getRoot c = Except.ok r)
    (hv : env.semVerify (env.semaphoreGroupOf c)
      ⟨10, r, n, s, env.scopeOf c, p⟩ = false) :
    verifyZKProof env used c s n p =
      Except.error (Err.requireFail "Proof verification failed") ∧
    runVZK env used c s n p = (used, []) := by
  have herr : verifyZKProof env used c s n p =
      Except.error (Err.requireFail "Proof verification failed") := by
    simp [verifyZKProof, hused, hroot, hmock, hv]
  exact ⟨herr, by simp [runVZK, herr]⟩

/-- Witness for C3's theorem: the rejecting real-verifier deployment
reverts with the `require` message and leaves the nullifier mapping and
logs untouched. -/
theorem verifyZKProof_reject_no_mutation_witness :
    verifyZKProof envReal used0 1 1 2 [] =
      Except.error (Err.requireFail "Proof verification failed") ∧
    runVZK envReal used0 1 1 2 [] = (used0, []) :=
  verifyZKProof_reject_no_mutation envReal used0 1 1 2 7 [] rfl rfl rfl rfl

/-- **C3 counterexample**.  The failure is not the `InvalidProof` custom
error the claim names: the concrete rejected submission reverts with the
`require` string instead. -/
theorem verifyZKProof_reject_not_invalidProof :
    verifyZKProof envReal used0 1 1 2 [] =
      Except.error (Err.requireFail "Proof verification failed") ∧
    (Except.error (Err.requireFail "Proof verification failed") :
        Except Err ((Nat → Nat → Bool) × List Event)) ≠
      Except.error Err.invalidProof := by
  constructor
  · rfl
  · simp

/-- **C10** (confirmed).  On a deployment whose Semaphore answers
`isMock()` with true, the proof bytes are irrelevant: the call's result is
the same for any two proofs, and — when the root resolves — it succeeds
exactly when the nullifier is unused and the root is nonzero, marking the
nullifier and emitting `AccessGranted`; otherwise it reverts. -/
theorem verifyZKProof_mock_ignores_proof (env : ZKEnv) (used : Nat → Nat → Bool)
    (c s n r : Nat) (hmock : env.isMock = true)
    (hroot : env.getRoot c = Except.ok r) :
    (∀ p q, verifyZKProof env used c s n p = verifyZKProof env used c s n q) ∧
    (used c n = true → ∀ p,
      verifyZKProof env used c s n p = Except.error Err.duplicateUse) ∧
    (used c n = false → r = 0 → ∀ p,
      verifyZKProof env used c s n p =
        Except.error (Err.requireFail "Proof verification failed")) ∧
    (used c n = false → r ≠ 0 → ∀ p, ∃ u2,
      verifyZKProof env used c s n p =
        Except.ok (u2, [Event.accessGranted c n s]) ∧ u2 c n = true) := by
  refine ⟨fun p q => ?_, fun hu p => ?_, fun hu hr p => ?_, fun hu hr p => ?_⟩
  · simp [verifyZKProof, hroot, hmock]
  · simp [verifyZKProof, hu]
  · simp [verifyZKProof, hu, hroot, hmock, hr]
  · exact ⟨fun c2 n2 => if c2 = c ∧ n2 = n then true else used c2 n2,
      by simp [verifyZKProof, hu, hroot, hmock, hr], by simp⟩

/-- Witness for C10's theorem: against the mock deployment (root 7 ≠ 0)
a fresh nullifier is granted access with arbitrary proof bytes, and the
result for garbage proof bytes coincides with the result for none. -/
theorem verifyZKProof_mock_ignores_proof_witness :
    verifyZKProof envMock used0 1 1 2 [9, 9, 9] =
      verifyZKProof envMock used0 1 1 2 [] ∧
    ∃ u2, verifyZKProof envMock used0 1 1 2 [9, 9, 9] =
      Except.ok (u2, [Event.accessGranted 1 2 1]) ∧ u2 1 2 = true :=
  ⟨(verifyZKProof_mock_ignores_proof envMock used0 1 1 2 7 rfl rfl).1 [9, 9, 9] [],
    (verifyZKProof_mock_ignores_proof envMock used0 1 1 2 7 rfl rfl).2.2.2 rfl
      (by decide) [9, 9, 9]⟩

/-! ## LeanIMT lemmas and claim theorems -/

/-- An element read in range with `getD` is a member of the list. -/
theorem getD_mem (l : List Nat) (n : Nat) (h : n < l.length) : l.getD n 0 ∈ l := by
  rw [List.getD_eq_getElem l 0 h]
  exact List.getElem_mem h

/-- Reading `nextLevel` at `k` sees the hash of the pair at `2k, 2k+1`,
or the promoted unpaired node at `2k`. -/
theorem nextLevel_getD (H : Nat → Nat → Nat) :
    (l : List Nat) → (k : Nat) → 2 * k < l.length →
      (nextLevel H l).getD k 0 =
        if 2 * k + 1 < l.length then H (l.getD (2 * k) 0) (l.getD (2 * k + 1) 0)
        else l.getD (2 * k) 0
  | [], k, h => by simp at h
  | [a], k, h => by
    have hk : k = 0 := by simp at h; omega
    subst hk
    simp [nextLevel]
  | a :: b :: rest, 0, h => by simp [nextLevel]
  | a :: b :: rest, k + 1, h => by
    have hlt : 2 * k < rest.length := by
      simp only [List.length_cons] at h
      omega
    have ih := nextLevel_getD H rest k hlt
    have e1 : 2 * (k + 1) = 2 * k + 1 + 1 := by omega
    have e2 : 2 * (k + 1) + 1 = 2 * k + 1 + 1 + 1 := by omega
    show (H a b :: nextLevel H rest).getD (k + 1) 0 = _
    rw [List.getD_cons_succ, ih]
    by_cases hc : 2 * k + 1 < rest.length
    · rw [if_pos hc, if_pos (by simp only [List.length_cons]; omega)]
      simp [e1, e2, List.getD_cons_succ]
    · rw [if_neg hc, if_neg (by simp only [List.length_cons]; omega)]
      simp [e1, List.getD_cons_succ]

/-- `nextLevel` preserves freedom from zero nodes when the hash never
returns zero. -/
theorem nextLevel_nonzero (H : Nat → Nat → Nat) (hH : ∀ a b, H a b ≠ 0) :
    (l : List Nat) → (∀ x ∈ l, x ≠ 0) → ∀ x ∈ nextLevel H l, x ≠ 0
  | [], _ => by simp [nextLevel]
  | [a], hl => by simpa [nextLevel] using hl
  | a :: b :: rest, hl => by
    intro x hx
    simp only [nextLevel, List.mem_cons] at hx
    rcases hx with rfl | hx
    · exact hH a b
    · exact nextLevel_nonzero H hH rest (fun y hy => hl y (by simp [hy])) x hx

/-- The zero-padded tail of a generated proof is skipped by the folding
rule. -/
theorem verifyFold_replicate_zero (H : Nat → Nat → Nat) (cur : Nat) :
    (n : Nat) → verifyFold H cur (List.replicate n 0) (List.replicate n 0) = cur
  | 0 => rfl
  | n + 1 => by
    simp only [List.replicate, verifyFold, if_pos rfl]
    exact verifyFold_replicate_zero H cur n

/-- `calculateLeanIMTRoot` agrees with its inner loop on every input. -/
theorem calculateLeanIMTRoot_eq_rootLoop (H : Nat → Nat → Nat) :
    (l : List Nat) → calculateLeanIMTRoot H l = rootLoop H l
  | [] => by simp [calculateLeanIMTRoot, rootLoop]
  | [x] => by simp [calculateLeanIMTRoot, rootLoop]
  | _ :: _ :: _ => rfl

/-- Folding the proof built from any level of the tree reaches that
level's folded root, provided no node of the level is zero and the hash
never produces zero: the step at each level matches `nextLevel`, odd
unpaired nodes materialising as zero siblings that the fold skips. -/
theorem verifyFold_proofLoop (H : Nat → Nat → Nat) (hH : ∀ a b, H a b ≠ 0) :
    ∀ (d : Nat) (lvl : List Nat) (idx : Nat), idx < lvl.length →
      lvl.length ≤ 2 ^ d → (∀ x ∈ lvl, x ≠ 0) →
      verifyFold H (lvl.getD idx 0) (proofLoop H lvl idx d).1
        (proofLoop H lvl idx d).2 = rootLoop H lvl := by
  intro d
  induction d with
  | zero =>
    intro lvl idx hidx hlen _
    have h1 : lvl.length = 1 := by simp at hlen; omega
    obtain ⟨a, rfl⟩ := List.length_eq_one.mp h1
    have hidx0 : idx = 0 := by simpa using hidx
    subst hidx0
    simp [proofLoop, verifyFold, rootLoop]
  | succ d ih =>
    intro lvl idx hidx hlen hnz
    by_cases h1 : lvl.length = 1
    · obtain ⟨a, rfl⟩ := List.length_eq_one.mp h1
      have hidx0 : idx = 0 := by simpa using hidx
      subst hidx0
      simp [proofLoop, verifyFold_replicate_zero, rootLoop]
    · have hlen2 : 2 ≤ lvl.length := by omega
      have hnext_len : (nextLevel H lvl).length = (lvl.length + 1) / 2 :=
        nextLevel_length H lvl
      have hc1 : idx / 2 < (nextLevel H lvl).length := by rw [hnext_len]; omega
      have hc2 : (nextLevel H lvl).length ≤ 2 ^ d := by
        rw [hnext_len]
        have hp : 2 ^ (d + 1) = 2 ^ d * 2 := pow_succ 2 d
        omega
      have hc3 : ∀ x ∈ nextLevel H lvl, x ≠ 0 := nextLevel_nonzero H hH lvl hnz
      have hroot : rootLoop H lvl = rootLoop H (nextLevel H lvl) := by
        rw [rootLoop]
        exact dif_pos (by omega)
      have hih := ih (nextLevel H lvl) (idx / 2) hc1 hc2 hc3
      rw [hroot]
      by_cases hodd : idx % 2 = 1
      · have hs : idx - 1 < lvl.length := by omega
        have hsibnz : lvl.getD (idx - 1) 0 ≠ 0 := hnz _ (getD_mem lvl (idx - 1) hs)
        have hkey : (nextLevel H lvl).getD (idx / 2) 0 =
            H (lvl.getD (idx - 1) 0) (lvl.getD idx 0) := by
          have e1 : 2 * (idx / 2) = idx - 1 := by omega
          have e2 : 2 * (idx / 2) + 1 = idx := by omega
          rw [nextLevel_getD H lvl (idx / 2) (by omega), if_pos (by omega), e2, e1]
        have hPL : proofLoop H lvl idx (d + 1) =
            (1 :: (proofLoop H (nextLevel H lvl) (idx / 2) d).1,
              lvl.getD (idx - 1) 0 :: (proofLoop H (nextLevel H lvl) (idx / 2) d).2) := by
          simp [proofLoop, h1, hodd]
        rw [hPL]
        show verifyFold H (lvl.getD idx 0) (1 :: _) (lvl.getD (idx - 1) 0 :: _) = _
        rw [verifyFold, if_neg hsibnz, if_neg (by norm_num)]
        rw [← hkey]
        exact hih
      · by_cases hin : idx + 1 < lvl.length
        · have hsibnz : lvl.getD (idx + 1) 0 ≠ 0 := hnz _ (getD_mem lvl (idx + 1) hin)
          have hkey : (nextLevel H lvl).getD (idx / 2) 0 =
              H (lvl.getD idx 0) (lvl.getD (idx + 1) 0) := by
            have e1 : 2 * (idx / 2) = idx := by omega
            have e2 : 2 * (idx / 2) + 1 = idx + 1 := by omega
            rw [nextLevel_getD H lvl (idx / 2) (by omega), if_pos (by omega), e2, e1]
          have hPL : proofLoop H lvl idx (d + 1) =
              (0 :: (proofLoop H (nextLevel H lvl) (idx / 2) d).1,
                lvl.getD (idx + 1) 0 :: (proofLoop H (nextLevel H lvl) (idx / 2) d).2) := by
            simp [proofLoop, h1, hodd]
          rw [hPL]
          show verifyFold H (lvl.getD idx 0) (0 :: _) (lvl.getD (idx + 1) 0 :: _) = _
          rw [verifyFold, if_neg hsibnz, if_pos rfl]
          rw [← hkey]
          exact hih
        · have hsib0 : lvl.getD (idx + 1) 0 = 0 :=
            List.getD_eq_default lvl 0 (by omega)
          have hkey : (nextLevel H lvl).getD (idx / 2) 0 = lvl.getD idx 0 := by
            have e1 : 2 * (idx / 2) = idx := by omega
            rw [nextLevel_getD H lvl (idx / 2) (by omega), if_neg (by omega), e1]
          have hPL : proofLoop H lvl idx (d + 1) =
              (0 :: (proofLoop H (nextLevel H lvl) (idx / 2) d).1,
                lvl.getD (idx + 1) 0 :: (proofLoop H (nextLevel H lvl) (idx / 2) d).2) := by
            simp [proofLoop, h1, hodd]
          rw [hPL, hsib0]
          show verifyFold H (lvl.getD idx 0) (0 :: _) ((0 : Nat) :: _) = _
          rw [verifyFold, if_pos rfl]
          rw [← hkey]
          exact hih

/-- **C6** (corrected).  For every leaf sequence with no zero leaf, every
in-range index and every sufficient depth, folding the proof returned by
`calculateLeanIMTProof` from the chosen leaf with the
skip-on-zero-sibling rule yields exactly `calculateLeanIMTRoot` of the
leaves, and `verifyLeanIMTProof` accepts — provided also that the hash
never returns zero, since a zero node value would be misread as the
pass-through sentinel (see the counterexample). -/
theorem leanIMT_proof_folds_to_root (H : Nat → Nat → Nat)
    (hH : ∀ a b, H a b ≠ 0) (L : List Nat) (i d : Nat) (hi : i < L.length)
    (hd : L.length ≤ 2 ^ d) (hnz : ∀ x ∈ L, x ≠ 0) :
    verifyFold H (L.getD i 0) (calculateLeanIMTProof H L i d).pathIndices
      (calculateLeanIMTProof H L i d).siblings = calculateLeanIMTRoot H L ∧
    verifyLeanIMTProof H (L.getD i 0) (calculateLeanIMTProof H L i d).pathIndices
      (calculateLeanIMTProof H L i d).siblings (calculateLeanIMTRoot H L) = true := by
  have hmain : verifyFold H (L.getD i 0) (proofLoop H L i d).1 (proofLoop H L i d).2 =
      rootLoop H L := verifyFold_proofLoop H hH d L i hi hd hnz
  have hroot : calculateLeanIMTRoot H L = rootLoop H L :=
    calculateLeanIMTRoot_eq_rootLoop H L
  have hfold : verifyFold H (L.getD i 0) (calculateLeanIMTProof H L i d).pathIndices
      (calculateLeanIMTProof H L i d).siblings = calculateLeanIMTRoot H L := by
    rw [hroot]
    exact hmain
  refine ⟨hfold, ?_⟩
  rw [verifyLeanIMTProof, hfold]
  simp

/-- Witness for C6's theorem: three nonzero leaves at depth 2, proving
index 0 — the path crosses the odd-node promotion at the last level — fold
to the root; the hash stand-in `H0` never returns zero. -/
theorem leanIMT_proof_folds_to_root_witness :
    verifyFold H0 (([1, 2, 3] : List Nat).getD 0 0)
      (calculateLeanIMTProof H0 [1, 2, 3] 0 2).pathIndices
      (calculateLeanIMTProof H0 [1, 2, 3] 0 2).siblings =
      calculateLeanIMTRoot H0 [1, 2, 3] :=
  (leanIMT_proof_folds_to_root H0 (fun a b => by simp [H0]) [1, 2, 3] 0 2
    (by decide) (by decide) (by decide)).1

/-- **C6 counterexample**.  The claim quantifies over *every* leaf
sequence, but a genuine zero leaf defeats the zero-is-pass-through
convention: for leaves `[0, 5]` the proof for index 1 records the real
sibling `0`, the fold skips it and yields the leaf `5`, while the root is
`H 0 5` — here `6` under the stand-in hash, as for any hash with
`H(0,5) ≠ 5` — so `verifyLeanIMTProof` rejects the generated proof. -/
theorem leanIMT_zero_leaf_proof_fails :
    calculateLeanIMTProof H0 [0, 5] 1 1 = ⟨[1], [0]⟩ ∧
    verifyFold H0 (([0, 5] : List Nat).getD 1 0) [1] [0] = 5 ∧
    calculateLeanIMTRoot H0 [0, 5] = 6 ∧
    verifyLeanIMTProof H0 (([0, 5] : List Nat).getD 1 0) [1] [0]
      (calculateLeanIMTRoot H0 [0, 5]) = false := by
  have hroot : calculateLeanIMTRoot H0 [0, 5] = 6 := by
    simp [calculateLeanIMTRoot, rootLoop, nextLevel, H0]
  refine ⟨rfl, rfl, hroot, ?_⟩
  rw [verifyLeanIMTProof, hroot]
  rfl

/-- **C8** (corrected).  `calculateLeanIMTProof` performs no input
validation and never rejects: for every leaf sequence, every index — in
range or not — and every depth — sufficient or not — it returns a proof
record whose two arrays both have length exactly `nLevels`. -/
theorem calculateLeanIMTProof_total (H : Nat → Nat → Nat) :
    ∀ (nLevels : Nat) (leaves : List Nat) (leafIndex : Nat),
      (calculateLeanIMTProof H leaves leafIndex nLevels).pathIndices.length = nLevels ∧
      (calculateLeanIMTProof H leaves leafIndex nLevels).siblings.length = nLevels := by
  intro d
  induction d with
  | zero => intro leaves idx; exact ⟨rfl, rfl⟩
  | succ d ih =>
    intro leaves idx
    show (proofLoop H leaves idx (d + 1)).1.length = d + 1 ∧
      (proofLoop H leaves idx (d + 1)).2.length = d + 1
    by_cases h1 : leaves.length = 1
    · simp [proofLoop, h1]
    · obtain ⟨ih1, ih2⟩ := ih (nextLevel H leaves) (idx / 2)
      simp only [proofLoop, h1, if_false]
      exact ⟨by simpa using ih1, by simpa using ih2⟩

/-- **C8 counterexample**.  The code rejects neither an out-of-range
index (here `2` for a 2-leaf tree: it returns a proof with a zero
sibling) nor an insufficient depth (here depth 1 for 4 leaves, where
`ceil(log2 4) = 2`: it returns a truncated proof) — no failure occurs. -/
theorem calculateLeanIMTProof_never_rejects :
    calculateLeanIMTProof H0 [1, 2] 2 1 = ⟨[0], [0]⟩ ∧
    calculateLeanIMTProof H0 [1, 2, 3, 4] 0 1 = ⟨[0], [2]⟩ :=
  ⟨rfl, rfl⟩

/-- **C9** (confirmed).  `calculateLeanIMTRoot` of the empty leaf
sequence is the sentinel `0`, and of a single leaf is that leaf itself —
both copies of the function in the repository are identical and short-cut
these cases before the level loop. -/
theorem calculateLeanIMTRoot_base (H : Nat → Nat → Nat) (x : Nat) :
    calculateLeanIMTRoot H [] = 0 ∧ calculateLeanIMTRoot H [x] = x :=
  ⟨rfl, rfl⟩

end Obscurus
